import Mathlib

/-!
Shallow embedding of the `fetch-site-cli` mirroring pipeline (src/fetch.ts).

The TypeScript program mirrors a web page: it fetches the HTML, rewrites
resource references (image `src`, stylesheet `href`, script `src`) to a
local site directory, downloads the referenced resources, and records
per-URL statistics in a metadata ledger.

Modelling conventions:
- an HTML document is modelled as its parsed element list (the cheerio DOM);
- external effects (network fetches, filesystem writes, URL resolution by
  the WHATWG `URL` constructor, HTML serialization, the clock) are supplied
  by an `Env` of oracles, so that theorems quantify over every possible
  outcome of those effects;
- the mutable process state (written files, in-memory metadata map, the
  persisted metadata snapshot, the log) is threaded explicitly as `St`;
- `Promise.all` over per-resource tasks is embedded as a left-to-right fold
  over the task list: each task catches its own errors, so settlement and
  failure isolation are provable facts about the fold;
- machine strings are Lean `String`s and character tests are done on
  `String.data` so everything evaluates inside the kernel.
-/

/-- One entry of the metadata ledger (`MetaData` in fetch.ts).
`last_fetch` (a JS `Date`) is modelled as a natural-number timestamp. -/
structure MetaData where
  url : String
  num_links : Nat
  num_images : Nat
  last_fetch : Nat
  num_fetches : Nat
deriving DecidableEq

/-- A parsed HTML element: tag name and attribute list (cheerio `attribs`). -/
structure Element where
  tag : String
  attrs : List (String × String)
deriving DecidableEq

/-- A parsed HTML document: the list of its elements. -/
structure Html where
  elements : List Element
deriving DecidableEq

/-- First attribute value bound to `name`, as cheerio `attribs` lookup. -/
def lookupAttr : List (String × String) → String → Option String
  | [], _ => none
  | (k, v) :: rest, n => if k = n then some v else lookupAttr rest n

/-- Set attribute `name` to `v` (cheerio `$(el).attr(name, v)`). -/
def setAttr : List (String × String) → String → String → List (String × String)
  | [], n, v => [(n, v)]
  | (k, w) :: rest, n, v => if k = n then (n, v) :: rest else (k, w) :: setAttr rest n v

/-- `s` starts with `p` (JS `String.prototype.startsWith`). -/
def strStartsWith (s p : String) : Bool :=
  s.data.take p.data.length == p.data

/-- JavaScript regex `\s` character class (the code points it matches). -/
def jsWhitespaceChar (c : Char) : Bool :=
  c ∈ [' ', '\t', '\n', '\x0b', '\x0c', '\r', '\u00A0', '\u1680', '\u2000',
       '\u2001', '\u2002', '\u2003', '\u2004', '\u2005', '\u2006', '\u2007',
       '\u2008', '\u2009', '\u200A', '\u2028', '\u2029', '\u202F', '\u205F',
       '\u3000', '\uFEFF']

/-- Characters the JS regex `.` does not match (line terminators). -/
def jsLineTermChar (c : Char) : Bool :=
  c ∈ ['\n', '\r', '\u2028', '\u2029']

/-- Split a character list at `/` separators (segments of a POSIX path). -/
def splitSlashes : List Char → List Char → List String
  | acc, [] => [⟨acc.reverse⟩]
  | acc, c :: rest =>
    if c = '/' then ⟨acc.reverse⟩ :: splitSlashes [] rest
    else splitSlashes (c :: acc) rest

/-- Rejoin path segments with `/`. -/
def joinSegs : List String → String
  | [] => ""
  | [s] => s
  | s :: rest => s ++ "/" ++ joinSegs rest

/-- Resolve `.` and `..` segments as Node `path.posix.normalize` does:
empty and `.` segments are dropped; `..` pops the previous segment, stays
as a literal `..` when there is nothing to pop and the path is relative,
and is dropped at the root of an absolute path. -/
def resolveDots (allowAbove : Bool) : List String → List String → List String
  | stack, [] => stack.reverse
  | stack, seg :: rest =>
    if seg = "" ∨ seg = "." then resolveDots allowAbove stack rest
    else if seg = ".." then
      match stack with
      | [] => resolveDots allowAbove (if allowAbove then [".."] else []) rest
      | top :: stk =>
        if top = ".." then resolveDots allowAbove (seg :: top :: stk) rest
        else resolveDots allowAbove stk rest
    else resolveDots allowAbove (seg :: stack) rest

/-- Node `path.posix.normalize`. -/
def posixNormalize (p : String) : String :=
  if p.data = [] then "."
  else
    let isAbs : Bool := p.data.head? == some '/'
    let trail : Bool := p.data.getLast? == some '/'
    let core := joinSegs (resolveDots (!isAbs) [] (splitSlashes [] p.data))
    if core = "" then
      if isAbs then "/" else if trail then "./" else "."
    else
      let core := if trail then core ++ "/" else core
      if isAbs then "/" ++ core else core

/-- Node `path.join(a, b)` (POSIX): drop empty parts, join with `/`,
normalize; with no non-empty part the result is `.`. -/
def pathJoin (a b : String) : String :=
  if a = "" ∧ b = "" then "."
  else if a = "" then posixNormalize b
  else if b = "" then posixNormalize a
  else posixNormalize (a ++ "/" ++ b)

/-- `removeTrailingSlash` in fetch.ts: `url.replace(/\/$/, '')` removes a
single trailing slash when present. -/
def removeTrailingSlash (url : String) : String :=
  if url.data.getLast? = some '/' then ⟨url.data.dropLast⟩ else url

/-- The character list remaining after a case-insensitive `http://` or
`https://` scheme prefix, when the string has one. -/
def schemeRest (cs : List Char) : Option (List Char) :=
  if (cs.take 8).map Char.toLower = "https://".data then some (cs.drop 8)
  else if (cs.take 7).map Char.toLower = "http://".data then some (cs.drop 7)
  else none

/-- `isValidUrl` in fetch.ts: the regex `^(https?):\/\/[^\s/$.?#].[^\s]*$`
with the `i` flag.  After the scheme there must be a first character that is
not whitespace and not one of `/ $ . ? #`, then one arbitrary
non-line-terminator character, then only non-whitespace characters. -/
def isValidUrl (url : String) : Bool :=
  match schemeRest url.data with
  | some (c1 :: c2 :: rest) =>
    !jsWhitespaceChar c1 && !(['/', '$', '.', '?', '#'].contains c1) &&
      !jsLineTermChar c2 && rest.all (fun c => !jsWhitespaceChar c)
  | _ => false

/-- Replace every character of `targets` occurring in `s` by `_`. -/
def replaceChars (s : String) (targets : List Char) : String :=
  ⟨s.data.map (fun c => if targets.contains c then '_' else c)⟩

/-- Strip one leading `http://` or `https://` (case-sensitive, as the
regex `/^https?:\/\//` in fetch.ts). -/
def stripScheme (s : String) : String :=
  if strStartsWith s "https://" then ⟨s.data.drop 8⟩
  else if strStartsWith s "http://" then ⟨s.data.drop 7⟩
  else s

/-- `urlToFilename` in fetch.ts: strip the scheme, replace `/ & ?` by `_`,
append `.html`. -/
def urlToFilename (url : String) : String :=
  replaceChars (stripScheme url) ['/', '&', '?'] ++ ".html"

/-- `urlToSiteBaseUrl` in fetch.ts: strip the scheme and replace the wider
separator set `/ & ? . : = $` by `_`. -/
def urlToSiteBaseUrl (url : String) : String :=
  replaceChars (stripScheme url) ['/', '&', '?', '.', ':', '=', '$']

/-- Count of elements with the given tag (`countTagsInHtml` in fetch.ts). -/
def countTagsInHtml (h : Html) (tagName : String) : Nat :=
  (h.elements.filter (fun e => e.tag = tagName)).length

/-- `countFilesInHtml` in fetch.ts: the pair (anchor-tag count, image-tag
count) of the document. -/
def countFilesInHtml (h : Html) : Nat × Nat :=
  (countTagsInHtml h "a", countTagsInHtml h "img")

/-- `img` selector scan: the `src` attribute of every image element that
has one, in document order. -/
def listImagesInHtml (h : Html) : List String :=
  h.elements.filterMap (fun e => if e.tag = "img" then lookupAttr e.attrs "src" else none)

/-- `link[rel="stylesheet"]` selector scan: the `href` of every stylesheet
link that has one, in document order. -/
def listCssFilesInHtml (h : Html) : List String :=
  h.elements.filterMap (fun e =>
    if e.tag = "link" ∧ lookupAttr e.attrs "rel" = some "stylesheet" then
      lookupAttr e.attrs "href"
    else none)

/-- `script[src]` selector scan: the `src` of every script element that
declares one, in document order. -/
def listJsFilesInHtml (h : Html) : List String :=
  h.elements.filterMap (fun e => if e.tag = "script" then lookupAttr e.attrs "src" else none)

/-- All candidate resource references of a page, as collected by
`downloadFilesInHtml`: images, then stylesheets, then scripts. -/
def candidateFiles (h : Html) : List String :=
  listImagesInHtml h ++ listCssFilesInHtml h ++ listJsFilesInHtml h

/-- `validFilename` in fetch.ts: non-empty and matching no character of the
regex `[;:,]`. -/
def validFilename (file : String) : Bool :=
  !file.data.isEmpty &&
    !(file.data.contains ';' || file.data.contains ':' || file.data.contains ',')

/-- `modifyPath` in fetch.ts, acting on an attribute list: when the
attribute is present, non-empty (JS truthiness) and does not start with
`http`, it is replaced by `path.join(siteDir, value)`. -/
def modifyAttr (siteDir : String) (attrs : List (String × String)) (name : String) :
    List (String × String) :=
  match lookupAttr attrs name with
  | none => attrs
  | some v =>
    if v = "" then attrs
    else if strStartsWith v "http" then attrs
    else setAttr attrs name (pathJoin siteDir v)

/-- First rewriting pass of `modifyHtmlContent`: `$('img').each`. -/
def modifyImgPass (siteDir : String) (e : Element) : Element :=
  if e.tag = "img" then { e with attrs := modifyAttr siteDir e.attrs "src" } else e

/-- Second rewriting pass: `$('link[rel="stylesheet"]').each`. -/
def modifyCssPass (siteDir : String) (e : Element) : Element :=
  if e.tag = "link" ∧ lookupAttr e.attrs "rel" = some "stylesheet" then
    { e with attrs := modifyAttr siteDir e.attrs "href" }
  else e

/-- Third rewriting pass: `$('script[src]').each`. -/
def modifyJsPass (siteDir : String) (e : Element) : Element :=
  if e.tag = "script" ∧ (lookupAttr e.attrs "src").isSome then
    { e with attrs := modifyAttr siteDir e.attrs "src" }
  else e

/-- `modifyHtmlContent` in fetch.ts: the three selector passes run in
sequence over the same document. -/
def modifyHtmlContent (html : Html) (siteDir : String) : Html :=
  ⟨((html.elements.map (modifyImgPass siteDir)).map (modifyCssPass siteDir)).map
      (modifyJsPass siteDir)⟩

/-- Process state threaded through the pipeline: files written so far
(path, content), the in-memory `META_DB` map as an ordered association
list, the persisted `meta.json` snapshot, and the console log. -/
structure St where
  files : List (String × String)
  metaDB : List (String × MetaData)
  metaFile : List MetaData
  log : List String
deriving DecidableEq

/-- Oracles for the external effects of the program. -/
structure Env where
  pageFetch : String → Except String Html
  resFetch : String → Except String String
  fsWrite : String → Except String Unit
  resolveUrl : String → String → String
  pathnameOf : String → String
  render : Html → String
  now : Nat

/-- Append a console line. -/
def pushLog (st : St) (m : String) : St :=
  { st with log := st.log ++ [m] }

/-- Record a filesystem write. -/
def addFile (st : St) (p d : String) : St :=
  { st with files := st.files ++ [(p, d)] }

/-- `Map.get` on the ledger: value of the first binding of `k`. -/
def dbGet : List (String × MetaData) → String → Option MetaData
  | [], _ => none
  | (k, v) :: rest, u => if k = u then some v else dbGet rest u

/-- `Map.set` on the ledger: replace the binding of `k` in place, or append
a new one (JS `Map` insertion order). -/
def dbSet : List (String × MetaData) → String → MetaData → List (String × MetaData)
  | [], k, v => [(k, v)]
  | (k, w) :: rest, u, v => if k = u then (u, v) :: rest else (k, w) :: dbSet rest u v

/-- `[...META_DB.values()]`. -/
def dbValues (db : List (String × MetaData)) : List MetaData :=
  db.map Prod.snd

/-- `readMetaDataFile` applied to a parsed entry array: `META_DB.set(meta.url, meta)`
for each entry in order, starting from the given map. -/
def loadEntries : List MetaData → List (String × MetaData) → List (String × MetaData)
  | [], db => db
  | m :: rest, db => loadEntries rest (dbSet db m.url m)

/-- `createMetaData` in fetch.ts: recompute link and image counts from the
HTML, read the previous fetch count (0 when absent) and build the new entry
with the current time. -/
def createMetaData (db : List (String × MetaData)) (now : Nat) (url : String)
    (contentHtml : Html) : MetaData :=
  { url := url
    num_links := (countFilesInHtml contentHtml).1
    num_images := (countFilesInHtml contentHtml).2
    last_fetch := now
    num_fetches := ((dbGet db url).map MetaData.num_fetches).getD 0 + 1 }

/-- `updateMetaData` in fetch.ts: store the recomputed entry under its URL
and snapshot the whole map to `meta.json` (`writeMetaFile`). -/
def updateMetaData (env : Env) (url : String) (contentHtml : Html) (st : St) : St :=
  let m := createMetaData st.metaDB env.now url contentHtml
  let db := dbSet st.metaDB url m
  { st with metaDB := db, metaFile := dbValues db }

/-- `fetchData` in fetch.ts: reject invalid URLs before any request, then
ask the network oracle for the page. -/
def fetchData (env : Env) (url : String) : Except String Html :=
  if !isValidUrl url then Except.error (url ++ " is invalid URL.")
  else env.pageFetch url

/-- The files-written outcome of one resource task, as a function of that
task alone: its URL is fetched and the result written to
`path.join(dir, new URL(url).pathname)`; either failure yields no file. -/
def taskWrite (env : Env) (dir u : String) : Option (String × String) :=
  match env.resFetch u with
  | Except.error _ => none
  | Except.ok data =>
    match env.fsWrite (pathJoin dir (env.pathnameOf u)) with
    | Except.error _ => none
    | Except.ok _ => some (pathJoin dir (env.pathnameOf u), data)

/-- One per-resource download task of `downloadFiles`, with its own
try/catch: failures are logged with the URL and detail and do not escape. -/
def task (env : Env) (dir u : String) (i : Nat) (st : St) : St :=
  let st1 := pushLog st ("Downloading: " ++ u)
  match env.resFetch u with
  | Except.error e =>
    pushLog (pushLog st1 ("Error downloading file " ++ toString (i + 1) ++ ": " ++ u))
      ("  Details: " ++ e)
  | Except.ok data =>
    match env.fsWrite (pathJoin dir (env.pathnameOf u)) with
    | Except.error e =>
      pushLog (pushLog st1 ("Error downloading file " ++ toString (i + 1) ++ ": " ++ u))
        ("  Details: " ++ e)
    | Except.ok _ =>
      pushLog (addFile st1 (pathJoin dir (env.pathnameOf u)) data)
        ("File #" ++ toString (i + 1) ++ " downloaded successfully.")

/-- The `Promise.all` join over the task list, embedded as a fold that runs
every task to completion. -/
def downloadFilesGo (env : Env) (dir : String) : Nat → List String → St → St
  | _, [], st => st
  | i, u :: rest, st => downloadFilesGo env dir (i + 1) rest (task env dir u i st)

/-- `downloadFiles` in fetch.ts. -/
def downloadFiles (env : Env) (urls : List String) (directoryPath : String) (st : St) : St :=
  downloadFilesGo env directoryPath 0 urls st

/-- The absolute download URL list of a page: candidate references that
pass `validFilename`, resolved against the page URL by `new URL(u, base)`. -/
def downloadUrls (env : Env) (baseUrl : String) (html : Html) : List String :=
  ((candidateFiles html).filter validFilename).map (fun u => env.resolveUrl u baseUrl)

/-- `downloadFilesInHtml` in fetch.ts. -/
def downloadFilesInHtml (env : Env) (baseUrl : String) (contentHtml : Html)
    (siteDir : String) (st : St) : St :=
  downloadFiles env (downloadUrls env baseUrl contentHtml) siteDir st

/-- `refetchDataFromUrl` in fetch.ts: the per-URL mirroring run with its
outer try/catch.  Any error from validation, the page fetch or the
page-file write is caught and logged, ending the run; resource downloads
and the ledger update follow a successful page write. -/
def refetchDataFromUrl (env : Env) (appPath url : String) (st : St) : St :=
  let st0 := pushLog st ("Fetching " ++ url ++ " ...")
  match fetchData env url with
  | Except.error e => pushLog st0 e
  | Except.ok contentHtml =>
    let st1 := pushLog st0 ("Content fetched from " ++ url ++ " successfully.")
    let sitePath := pathJoin appPath (urlToSiteBaseUrl url)
    let filePath := pathJoin appPath (urlToFilename url)
    let modifiedContentHtml := modifyHtmlContent contentHtml (urlToSiteBaseUrl url)
    match env.fsWrite filePath with
    | Except.error e => pushLog st1 e
    | Except.ok _ =>
      let st2 := pushLog (addFile st1 filePath (env.render modifiedContentHtml))
        ("Data written to " ++ filePath ++ " successfully.")
      let st3 := downloadFilesInHtml env url contentHtml sitePath st2
      updateMetaData env url contentHtml st3

/-- Ledger states reachable by the program itself: the empty map (fresh
`meta.json`), a successful-mirror update of a reachable state, and a
restart that loads the snapshot previously written from a reachable state. -/
inductive ReachableDB : List (String × MetaData) → Prop where
  | empty : ReachableDB []
  | update (db : List (String × MetaData)) (now : Nat) (url : String) (html : Html) :
      ReachableDB db → ReachableDB (dbSet db url (createMetaData db now url html))
  | reload (db : List (String × MetaData)) :
      ReachableDB db → ReachableDB (loadEntries (dbValues db) [])

/-- Host portion of a URL as the spec words it: the characters after the
scheme separator and before the first `/`. -/
def hostPart (s : String) : List Char :=
  (if strStartsWith s "https://" then s.data.drop 8
   else if strStartsWith s "http://" then s.data.drop 7
   else []).takeWhile (fun c => !(c == '/'))

/-- URL validity as the claim words it: scheme `http` or `https`, a
non-empty host, and no embedded whitespace anywhere in the string. -/
def specValidUrl (s : String) : Bool :=
  (strStartsWith s "http://" || strStartsWith s "https://") &&
    !(hostPart s).isEmpty && s.data.all (fun c => !jsWhitespaceChar c)

/-- Rewriting of one reference value as the amended claim words it: values
starting with `http` and empty values are kept, every other value `r`
becomes `join(d, r)`. -/
def specRewriteValue (d v : String) : String :=
  if strStartsWith v "http" then v
  else if v = "" then v
  else pathJoin d v

/-- Rewrite the named attribute of an attribute list, when present, through
`specRewriteValue`. -/
def specRewriteAttrs (d : String) (attrs : List (String × String)) (name : String) :
    List (String × String) :=
  match lookupAttr attrs name with
  | none => attrs
  | some v => setAttr attrs name (specRewriteValue d v)

/-- One-pass element rewriting as the amended claim words it: image `src`,
stylesheet `href` and script `src` go through `specRewriteValue`. -/
def specRewriteElement (d : String) (e : Element) : Element :=
  if e.tag = "img" then { e with attrs := specRewriteAttrs d e.attrs "src" }
  else if e.tag = "link" ∧ lookupAttr e.attrs "rel" = some "stylesheet" then
    { e with attrs := specRewriteAttrs d e.attrs "href" }
  else if e.tag = "script" ∧ (lookupAttr e.attrs "src").isSome then
    { e with attrs := specRewriteAttrs d e.attrs "src" }
  else e

/-- A one-image document whose reference starts with `http` but is not an
absolute URL. -/
def cexHtml4 : Html := ⟨[⟨"img", [("src", "httpfoo")]⟩]⟩

/-- A one-image document with a relative reference. -/
def cexHtml5 : Html := ⟨[⟨"img", [("src", "a.png")]⟩]⟩

/-- A small page with one anchor, one image and one stylesheet. -/
def htmlW : Html :=
  ⟨[⟨"a", [("href", "x")]⟩, ⟨"img", [("src", "a.png")]⟩,
    ⟨"link", [("rel", "stylesheet"), ("href", "b.css")]⟩]⟩

/-- A document whose only reference is already an absolute URL. -/
def htmlW5 : Html := ⟨[⟨"img", [("src", "http://cdn.example/x.png")]⟩]⟩

/-- The empty process state. -/
def stW : St := ⟨[], [], [], []⟩

/-- Oracle assignment where the page fetch and all writes succeed but every
resource fetch fails. -/
def envW1 : Env :=
  { pageFetch := fun _ => Except.ok htmlW
    resFetch := fun _ => Except.error "network error"
    fsWrite := fun _ => Except.ok ()
    resolveUrl := fun r _ => r
    pathnameOf := fun u => u
    render := fun _ => ""
    now := 42 }

/-- Oracle assignment where the page fetch itself fails. -/
def envW2 : Env :=
  { pageFetch := fun _ => Except.error "network down"
    resFetch := fun _ => Except.ok "data"
    fsWrite := fun _ => Except.ok ()
    resolveUrl := fun r _ => r
    pathnameOf := fun u => u
    render := fun _ => ""
    now := 7 }

theorem mapIdOfMem {α : Type} (l : List α) (f : α → α) (h : ∀ a ∈ l, f a = a) :
    l.map f = l := by
  induction l with
  | nil => rfl
  | cons a rest ih =>
    simp only [List.map_cons, h a (by simp)]
    rw [ih (fun b hb => h b (by simp [hb]))]

theorem mem_of_contains_true {l : List Char} {c : Char} (h : l.contains c = true) : c ∈ l :=
  List.elem_iff.mp h

theorem contains_false_of_not_mem {l : List Char} {c : Char} (h : c ∉ l) :
    l.contains c = false := by
  by_contra hne
  exact h (mem_of_contains_true (Bool.not_eq_false _ |>.mp hne))

theorem isEmpty_false_iff (l : List Char) : l.isEmpty = false ↔ l ≠ [] := by
  cases l <;> simp

theorem no_colon_not_scheme (r p : String) (hp : ':' ∈ p.data)
    (hc : r.data.contains ':' = false) : strStartsWith r p = false := by
  by_contra hne
  rw [Bool.not_eq_false] at hne
  unfold strStartsWith at hne
  rw [beq_iff_eq] at hne
  have hmem : ':' ∈ r.data := List.mem_of_mem_take (l := r.data) (hne ▸ hp)
  have ht : r.data.contains ':' = true := List.elem_iff.mpr hmem
  rw [hc] at ht
  exact Bool.false_ne_true ht

/-- Claim C6 counterexample: `http://example.com//` is accepted by the
validator, yet normalizing it twice strips two slashes while normalizing it
once strips only one, so normalization is not idempotent on it. -/
theorem removeTrailingSlash_not_idem_c6_counterexample :
    isValidUrl "http://example.com//" = true ∧
    removeTrailingSlash (removeTrailingSlash "http://example.com//") ≠
      removeTrailingSlash "http://example.com//" := by decide

/-- Claim C6 (amended): trailing-slash normalization is idempotent exactly
on URLs that do not end in two slashes; for every valid URL whose last two
characters are not both `/`, normalizing twice equals normalizing once. -/
theorem removeTrailingSlash_idem_c6 (u : String) (_hv : isValidUrl u = true)
    (h : ¬(u.data.getLast? = some '/' ∧ u.data.dropLast.getLast? = some '/')) :
    removeTrailingSlash (removeTrailingSlash u) = removeTrailingSlash u := by
  by_cases h1 : u.data.getLast? = some '/'
  · have e1 : removeTrailingSlash u = ⟨u.data.dropLast⟩ := by
      simp [removeTrailingSlash, h1]
    rw [e1]
    have h2 : ¬((⟨u.data.dropLast⟩ : String).data.getLast? = some '/') := fun hc => h ⟨h1, hc⟩
    simp [removeTrailingSlash, h2]
  · simp [removeTrailingSlash, h1]

theorem removeTrailingSlash_idem_c6_witness :
    removeTrailingSlash (removeTrailingSlash "http://example.com/") =
      removeTrailingSlash "http://example.com/" :=
  removeTrailingSlash_idem_c6 "http://example.com/" (by decide) (by decide)

/-- Claim C7 counterexample: `http://a` has scheme `http`, the non-empty
host `a` and no whitespace, yet the validator rejects it; `http://a b`
embeds a space, yet the validator accepts it.  So the accepted set is not
exactly the set the claim describes. -/
theorem isValidUrl_not_spec_c7_counterexample :
    specValidUrl "http://a" = true ∧ isValidUrl "http://a" = false ∧
    specValidUrl "http://a b" = false ∧ isValidUrl "http://a b" = true := by decide

/-- Claim C7 (amended): for every string the validator rejects, the
mirroring run stops with the invalid-URL error: whatever the oracles would
answer, the final state is the initial state plus exactly the two log
lines, so no network request, no filesystem write and no ledger change
happens for that URL. -/
theorem refetch_invalid_url_no_effect_c7 (env : Env) (appPath url : String) (st : St)
    (h : isValidUrl url = false) :
    refetchDataFromUrl env appPath url st =
      pushLog (pushLog st ("Fetching " ++ url ++ " ...")) (url ++ " is invalid URL.") := by
  simp [refetchDataFromUrl, fetchData, h]

theorem refetch_invalid_url_no_effect_c7_witness :
    refetchDataFromUrl envW2 "app" "nope" stW =
      pushLog (pushLog stW ("Fetching " ++ "nope" ++ " ...")) ("nope" ++ " is invalid URL.") :=
  refetch_invalid_url_no_effect_c7 envW2 "app" "nope" stW (by decide)

/-- Claim C8: a candidate resource reference is in the downloadable set
(the `validFilename`-filtered candidate list) exactly when it is a
candidate and it is neither empty nor contains any of `;`, `:`, `,` --
whether or not it is a syntactically valid URL. -/
theorem filter_excludes_special_chars_c8 (h : Html) (r : String) :
    r ∈ (candidateFiles h).filter validFilename ↔
      r ∈ candidateFiles h ∧
        ¬(r = "" ∨ r.data.contains ';' = true ∨ r.data.contains ':' = true ∨
            r.data.contains ',' = true) := by
  rw [List.mem_filter]
  have hnil : ("" : String).data = [] := rfl
  have hv : validFilename r = true ↔
      ¬(r = "" ∨ r.data.contains ';' = true ∨ r.data.contains ':' = true ∨
          r.data.contains ',' = true) := by
    rw [String.ext_iff, hnil]
    simp only [validFilename, Bool.and_eq_true, Bool.not_eq_true',
      Bool.or_eq_false_iff, not_or, Bool.not_eq_true, isEmpty_false_iff]
    tauto
  rw [hv]

/-- Claim C10: every reference that survives the validity filter contains
no `:` and therefore begins with no URL scheme (`http://`, `https://`,
`data:` all contain `:`); every URL the downloader is given is the
resolution, against the page URL, of such a scheme-less reference. -/
theorem scheme_refs_excluded_c10 (env : Env) (baseUrl : String) (h : Html) :
    (∀ r ∈ (candidateFiles h).filter validFilename,
        r.data.contains ':' = false ∧ strStartsWith r "http://" = false ∧
          strStartsWith r "https://" = false ∧ strStartsWith r "data:" = false) ∧
    ∀ u ∈ downloadUrls env baseUrl h,
      ∃ r ∈ (candidateFiles h).filter validFilename,
        u = env.resolveUrl r baseUrl ∧ r.data.contains ':' = false := by
  have key : ∀ r ∈ (candidateFiles h).filter validFilename,
      r.data.contains ':' = false := by
    intro r hr
    have hvf : validFilename r = true := (List.mem_filter.mp hr).2
    simp only [validFilename, Bool.and_eq_true, Bool.not_eq_true',
      Bool.or_eq_false_iff] at hvf
    exact hvf.2.1.2
  refine ⟨fun r hr => ?_, fun u hu => ?_⟩
  · have hc := key r hr
    exact ⟨hc, no_colon_not_scheme r "http://" (by decide) hc,
      no_colon_not_scheme r "https://" (by decide) hc,
      no_colon_not_scheme r "data:" (by decide) hc⟩
  · obtain ⟨r, hr, hru⟩ := List.mem_map.mp hu
    exact ⟨r, hr, hru.symm, key r hr⟩

theorem scheme_refs_excluded_c10_witness :
    ("a.png" : String).data.contains ':' = false ∧
      strStartsWith "a.png" "http://" = false ∧
      strStartsWith "a.png" "https://" = false ∧
      strStartsWith "a.png" "data:" = false :=
  (scheme_refs_excluded_c10 envW1 "http://e.com" htmlW).1 "a.png" (by decide)

theorem setAttr_lookup_self (attrs : List (String × String)) (n v : String)
    (h : lookupAttr attrs n = some v) : setAttr attrs n v = attrs := by
  induction attrs with
  | nil => simp [lookupAttr] at h
  | cons kv rest ih =>
    obtain ⟨k, w⟩ := kv
    by_cases hk : k = n
    · subst hk
      simp [lookupAttr] at h
      simp [setAttr, h]
    · simp [lookupAttr, hk] at h
      simp [setAttr, hk, ih h]

theorem modifyAttr_eq_spec (d : String) (attrs : List (String × String)) (n : String) :
    modifyAttr d attrs n = specRewriteAttrs d attrs n := by
  unfold modifyAttr specRewriteAttrs
  cases h : lookupAttr attrs n with
  | none => rfl
  | some v =>
    unfold specRewriteValue
    by_cases h1 : strStartsWith v "http" = true
    · simp only [h1, if_true]
      rw [setAttr_lookup_self attrs n v h]
      by_cases h0 : v = ""
      · simp [h0]
      · simp [h0, h1]
    · rw [Bool.not_eq_true] at h1
      by_cases h0 : v = ""
      · simp only [h0, if_true]
        have := setAttr_lookup_self attrs n v h
        simp only [h0] at this
        simp [this, h1]
      · simp [h0, h1]

theorem passes_compose (d : String) (e : Element) :
    modifyJsPass d (modifyCssPass d (modifyImgPass d e)) = specRewriteElement d e := by
  obtain ⟨t, attrs⟩ := e
  by_cases hImg : t = "img"
  · subst hImg
    simp [modifyImgPass, modifyCssPass, modifyJsPass, specRewriteElement,
      modifyAttr_eq_spec]
  · by_cases hCss : t = "link" ∧ lookupAttr attrs "rel" = some "stylesheet"
    · obtain ⟨hl, hr⟩ := hCss
      subst hl
      simp [modifyImgPass, modifyCssPass, modifyJsPass, specRewriteElement, hr,
        modifyAttr_eq_spec]
    · by_cases hJs : t = "script" ∧ (lookupAttr attrs "src").isSome
      · obtain ⟨hs, hq⟩ := hJs
        subst hs
        simp [modifyImgPass, modifyCssPass, modifyJsPass, specRewriteElement, hq,
          modifyAttr_eq_spec]
      · simp [modifyImgPass, modifyCssPass, modifyJsPass, specRewriteElement,
          hImg, hCss, hJs]

/-- Claim C4 counterexample: the reference `httpfoo` is not an absolute
URL, so by the claim it should be replaced by `join(d, r)`; the code keeps
it byte-identical because it merely starts with the four characters
`http`. -/
theorem rewrite_not_spec_c4_counterexample :
    modifyHtmlContent cexHtml4 "sitedir" = cexHtml4 ∧
    strStartsWith "httpfoo" "http://" = false ∧
    strStartsWith "httpfoo" "https://" = false ∧
    pathJoin "sitedir" "httpfoo" ≠ "httpfoo" := by decide

/-- Claim C4 (amended): the rewriter keeps every image-src, stylesheet-href
and script-src reference that starts with the four characters `http`
(absolute URL or not) byte-identical, keeps empty references, and replaces
every other present reference `r` by exactly `join(d, r)`. -/
theorem rewrite_join_or_keep_c4 (html : Html) (d : String) :
    modifyHtmlContent html d = ⟨html.elements.map (specRewriteElement d)⟩ := by
  unfold modifyHtmlContent
  have hcomp : ((modifyJsPass d ∘ modifyCssPass d) ∘ modifyImgPass d) =
      specRewriteElement d := by
    funext e
    exact passes_compose d e
  rw [List.map_map, List.map_map, hcomp]

theorem mem_candidate_img (g : Html) (e : Element) (v : String) (he : e ∈ g.elements)
    (ht : e.tag = "img") (hv : lookupAttr e.attrs "src" = some v) :
    v ∈ candidateFiles g := by
  unfold candidateFiles
  apply List.mem_append_left
  apply List.mem_append_left
  exact List.mem_filterMap.mpr ⟨e, he, by simp [ht, hv]⟩

theorem mem_candidate_css (g : Html) (e : Element) (v : String) (he : e ∈ g.elements)
    (ht : e.tag = "link" ∧ lookupAttr e.attrs "rel" = some "stylesheet")
    (hv : lookupAttr e.attrs "href" = some v) : v ∈ candidateFiles g := by
  unfold candidateFiles
  apply List.mem_append_left
  apply List.mem_append_right
  exact List.mem_filterMap.mpr ⟨e, he, by simp [ht.1, ht.2, hv]⟩

theorem mem_candidate_js (g : Html) (e : Element) (v : String) (he : e ∈ g.elements)
    (ht : e.tag = "script") (hv : lookupAttr e.attrs "src" = some v) :
    v ∈ candidateFiles g := by
  unfold candidateFiles
  apply List.mem_append_right
  exact List.mem_filterMap.mpr ⟨e, he, by simp [ht, hv]⟩

theorem modifyAttr_fixed (d : String) (attrs : List (String × String)) (n v : String)
    (hv : lookupAttr attrs n = some v)
    (hfix : v = "" ∨ strStartsWith v "http" = true ∨ pathJoin d v = v) :
    modifyAttr d attrs n = attrs := by
  unfold modifyAttr
  simp only [hv]
  rcases hfix with h0 | h1 | h2
  · simp [h0]
  · simp [h1]
  · by_cases h0 : v = ""
    · simp [h0]
    · by_cases h1 : strStartsWith v "http" = true
      · simp [h0, h1]
      · rw [if_neg h0, if_neg h1, h2]
        exact setAttr_lookup_self attrs n v hv

theorem rewrite_fixed (g : Html) (d : String)
    (hyp : ∀ r ∈ candidateFiles g,
      r = "" ∨ strStartsWith r "http" = true ∨ pathJoin d r = r) :
    modifyHtmlContent g d = g := by
  unfold modifyHtmlContent
  have h1 : g.elements.map (modifyImgPass d) = g.elements := by
    apply mapIdOfMem
    intro e he
    unfold modifyImgPass
    by_cases ht : e.tag = "img"
    · rw [if_pos ht]
      cases hv : lookupAttr e.attrs "src" with
      | none => simp [modifyAttr, hv]
      | some v =>
        rw [modifyAttr_fixed d e.attrs "src" v hv
          (hyp v (mem_candidate_img g e v he ht hv))]
    · rw [if_neg ht]
  rw [h1]
  have h2 : g.elements.map (modifyCssPass d) = g.elements := by
    apply mapIdOfMem
    intro e he
    unfold modifyCssPass
    by_cases ht : e.tag = "link" ∧ lookupAttr e.attrs "rel" = some "stylesheet"
    · rw [if_pos ht]
      cases hv : lookupAttr e.attrs "href" with
      | none => simp [modifyAttr, hv]
      | some v =>
        rw [modifyAttr_fixed d e.attrs "href" v hv
          (hyp v (mem_candidate_css g e v he ht hv))]
    · rw [if_neg ht]
  rw [h2]
  have h3 : g.elements.map (modifyJsPass d) = g.elements := by
    apply mapIdOfMem
    intro e he
    unfold modifyJsPass
    by_cases ht : e.tag = "script" ∧ (lookupAttr e.attrs "src").isSome
    · rw [if_pos ht]
      cases hv : lookupAttr e.attrs "src" with
      | none => simp [modifyAttr, hv]
      | some v =>
        rw [modifyAttr_fixed d e.attrs "src" v hv
          (hyp v (mem_candidate_js g e v he ht.1 hv))]
    · rw [if_neg ht]
  rw [h3]

/-- Claim C5 counterexample: rewriting the relative reference `a.png`
against the directory `example_com` twice compounds the directory prefix,
so re-running the rewriter with the same directory is not idempotent. -/
theorem rewrite_not_idempotent_c5_counterexample :
    modifyHtmlContent (modifyHtmlContent cexHtml5 "example_com") "example_com" ≠
        modifyHtmlContent cexHtml5 "example_com" ∧
    listImagesInHtml (modifyHtmlContent (modifyHtmlContent cexHtml5 "example_com")
        "example_com") = ["example_com/example_com/a.png"] ∧
    listImagesInHtml (modifyHtmlContent cexHtml5 "example_com") =
      ["example_com/a.png"] := by decide

theorem lookupAttr_setAttr (attrs : List (String × String)) (n w : String) :
    lookupAttr (setAttr attrs n w) n = some w := by
  induction attrs with
  | nil => simp [setAttr, lookupAttr]
  | cons kv rest ih =>
    obtain ⟨k, v⟩ := kv
    by_cases hk : k = n
    · subst hk
      simp [setAttr, lookupAttr]
    · simp [setAttr, lookupAttr, hk, ih]

theorem mapNeOfMem {α : Type} (l : List α) (f : α → α) (a : α) (ha : a ∈ l)
    (hfa : f a ≠ a) : l.map f ≠ l := by
  induction l with
  | nil => simp at ha
  | cons b rest ih =>
    rcases List.mem_cons.mp ha with he | hm
    · subst he
      simp only [List.map_cons]
      intro hEq
      exact hfa ((List.cons.injEq _ _ _ _).mp hEq).1
    · simp only [List.map_cons]
      intro hEq
      exact ih hm ((List.cons.injEq _ _ _ _).mp hEq).2

theorem specRewriteAttrs_of_lookup (d : String) (attrs : List (String × String))
    (n v : String) (h : lookupAttr attrs n = some v) :
    specRewriteAttrs d attrs n = setAttr attrs n (specRewriteValue d v) := by
  unfold specRewriteAttrs
  rw [h]

theorem specRewriteValue_join (d v : String) (hne : ¬(v = ""))
    (hns : ¬(strStartsWith v "http" = true)) : specRewriteValue d v = pathJoin d v := by
  unfold specRewriteValue
  rw [if_neg hns, if_neg hne]

theorem specElem_ne_of_changed (d : String) (e : Element) (n r : String)
    (hF : specRewriteElement d e = { e with attrs := setAttr e.attrs n (pathJoin d r) })
    (hfe : lookupAttr e.attrs n = some r) (hnj : ¬(pathJoin d r = r)) :
    specRewriteElement d e ≠ e := by
  rw [hF]
  intro hEq
  have hAttrs : setAttr e.attrs n (pathJoin d r) = e.attrs := congrArg Element.attrs hEq
  have hlk := lookupAttr_setAttr e.attrs n (pathJoin d r)
  rw [hAttrs, hfe] at hlk
  exact hnj (Option.some.inj hlk).symm

theorem modifyHtmlContent_eq_specRewrite (g : Html) (d : String) :
    modifyHtmlContent g d = ⟨g.elements.map (specRewriteElement d)⟩ := by
  unfold modifyHtmlContent
  have hcomp : ((modifyJsPass d ∘ modifyCssPass d) ∘ modifyImgPass d) =
      specRewriteElement d := by
    funext e
    exact passes_compose d e
  rw [List.map_map, List.map_map, hcomp]

theorem rewrite_fixed_iff (g : Html) (d : String) :
    modifyHtmlContent g d = g ↔
      ∀ r ∈ candidateFiles g,
        r = "" ∨ strStartsWith r "http" = true ∨ pathJoin d r = r := by
  constructor
  · intro hidem r hr
    by_contra hcon
    push_neg at hcon
    obtain ⟨hne, hns, hnj⟩ := hcon
    have h2 : (⟨g.elements.map (specRewriteElement d)⟩ : Html) = g := by
      rw [← modifyHtmlContent_eq_specRewrite g d]
      exact hidem
    have hgmap : g.elements.map (specRewriteElement d) = g.elements :=
      congrArg Html.elements h2
    unfold candidateFiles at hr
    rcases List.mem_append.mp hr with hr12 | hrJs
    · rcases List.mem_append.mp hr12 with hrImg | hrCss
      · obtain ⟨e, he, hfe⟩ := List.mem_filterMap.mp hrImg
        by_cases ht : e.tag = "img"
        · rw [if_pos ht] at hfe
          have hF : specRewriteElement d e =
              { e with attrs := setAttr e.attrs "src" (pathJoin d r) } := by
            unfold specRewriteElement
            rw [if_pos ht, specRewriteAttrs_of_lookup d e.attrs "src" r hfe,
              specRewriteValue_join d r hne hns]
          exact mapNeOfMem g.elements (specRewriteElement d) e he
            (specElem_ne_of_changed d e "src" r hF hfe hnj) hgmap
        · rw [if_neg ht] at hfe
          simp at hfe
      · obtain ⟨e, he, hfe⟩ := List.mem_filterMap.mp hrCss
        by_cases ht : e.tag = "link" ∧ lookupAttr e.attrs "rel" = some "stylesheet"
        · rw [if_pos ht] at hfe
          have hni : ¬(e.tag = "img") := by
            rw [ht.1]
            decide
          have hF : specRewriteElement d e =
              { e with attrs := setAttr e.attrs "href" (pathJoin d r) } := by
            unfold specRewriteElement
            rw [if_neg hni, if_pos ht, specRewriteAttrs_of_lookup d e.attrs "href" r hfe,
              specRewriteValue_join d r hne hns]
          exact mapNeOfMem g.elements (specRewriteElement d) e he
            (specElem_ne_of_changed d e "href" r hF hfe hnj) hgmap
        · rw [if_neg ht] at hfe
          simp at hfe
    · obtain ⟨e, he, hfe⟩ := List.mem_filterMap.mp hrJs
      by_cases ht : e.tag = "script"
      · rw [if_pos ht] at hfe
        have hni : ¬(e.tag = "img") := by
          rw [ht]
          decide
        have hnc : ¬(e.tag = "link" ∧ lookupAttr e.attrs "rel" = some "stylesheet") := by
          intro hc
          rw [ht] at hc
          exact absurd hc.1 (by decide)
        have hsome : (lookupAttr e.attrs "src").isSome := by
          rw [hfe]
          rfl
        have hF : specRewriteElement d e =
            { e with attrs := setAttr e.attrs "src" (pathJoin d r) } := by
          unfold specRewriteElement
          rw [if_neg hni, if_neg hnc, if_pos ⟨ht, hsome⟩,
            specRewriteAttrs_of_lookup d e.attrs "src" r hfe,
            specRewriteValue_join d r hne hns]
        exact mapNeOfMem g.elements (specRewriteElement d) e he
          (specElem_ne_of_changed d e "src" r hF hfe hnj) hgmap
      · rw [if_neg ht] at hfe
        simp at hfe
  · exact rewrite_fixed g d

/-- Claim C5 (amended): re-running the rewriter with the same directory d
is idempotent exactly when the once-rewritten output is a fixed point of
the rewriter: every rewritten resource reference is empty, starts with
`http`, or is itself unchanged by joining with d (join(d, r) = r, as
happens for d = `.`); otherwise a second run prepends the directory
again. -/
theorem rewrite_idem_on_fixed_c5 (h : Html) (d : String) :
    modifyHtmlContent (modifyHtmlContent h d) d = modifyHtmlContent h d ↔
      ∀ r ∈ candidateFiles (modifyHtmlContent h d),
        r = "" ∨ strStartsWith r "http" = true ∨ pathJoin d r = r :=
  rewrite_fixed_iff (modifyHtmlContent h d) d

theorem rewrite_idem_on_fixed_c5_witness :
    modifyHtmlContent (modifyHtmlContent htmlW5 "d") "d" = modifyHtmlContent htmlW5 "d" :=
  (rewrite_idem_on_fixed_c5 htmlW5 "d").mpr (by decide)

theorem dbGet_dbSet_self (db : List (String × MetaData)) (k : String) (v : MetaData) :
    dbGet (dbSet db k v) k = some v := by
  induction db with
  | nil => simp [dbSet, dbGet]
  | cons kv rest ih =>
    obtain ⟨k0, w⟩ := kv
    by_cases h : k0 = k
    · subst h
      simp [dbSet, dbGet]
    · simp [dbSet, dbGet, h, ih]

theorem dbGet_dbSet_ne (db : List (String × MetaData)) (k u : String) (v : MetaData)
    (h : u ≠ k) : dbGet (dbSet db k v) u = dbGet db u := by
  induction db with
  | nil =>
    simp only [dbSet, dbGet]
    rw [if_neg (fun he : k = u => h he.symm)]
  | cons kv rest ih =>
    obtain ⟨k0, w⟩ := kv
    by_cases hk : k0 = k
    · subst hk
      simp only [dbSet, if_pos rfl, dbGet]
      rw [if_neg (fun he : k0 = u => h he.symm), if_neg (fun he : k0 = u => h he.symm)]
    · simp only [dbSet, if_neg hk, dbGet]
      rw [ih]

/-- Claim C3: after a successful mirror, the ledger holds for the URL
exactly the freshly built entry: link and image counts recomputed from the
just-fetched HTML as tag-occurrence counts, `last_fetch` the current time,
and `num_fetches` the previous value (0 when absent) plus 1; mirroring the
same URL twice therefore ends with `num_fetches` two above the original,
and entries of other URLs are untouched. -/
theorem recordFetch_contract_c3 (env : Env) (url : String) (html : Html) (st : St) :
    dbGet (updateMetaData env url html st).metaDB url =
      some { url := url
             num_links := countTagsInHtml html "a"
             num_images := countTagsInHtml html "img"
             last_fetch := env.now
             num_fetches := ((dbGet st.metaDB url).map MetaData.num_fetches).getD 0 + 1 } ∧
    (∀ (env2 : Env) (html2 : Html),
      (dbGet (updateMetaData env2 url html2 (updateMetaData env url html st)).metaDB
            url).map MetaData.num_fetches =
        some (((dbGet st.metaDB url).map MetaData.num_fetches).getD 0 + 2)) ∧
    ∀ u, u ≠ url →
      dbGet (updateMetaData env url html st).metaDB u = dbGet st.metaDB u := by
  refine ⟨?_, ?_, ?_⟩
  · rw [show (updateMetaData env url html st).metaDB =
        dbSet st.metaDB url (createMetaData st.metaDB env.now url html) from rfl]
    rw [dbGet_dbSet_self]
    rfl
  · intro env2 html2
    rw [show (updateMetaData env2 url html2 (updateMetaData env url html st)).metaDB =
        dbSet (updateMetaData env url html st).metaDB url
          (createMetaData (updateMetaData env url html st).metaDB env2.now url html2)
        from rfl]
    rw [dbGet_dbSet_self]
    rw [show (updateMetaData env url html st).metaDB =
        dbSet st.metaDB url (createMetaData st.metaDB env.now url html) from rfl]
    simp [createMetaData, dbGet_dbSet_self]
  · intro u hu
    rw [show (updateMetaData env url html st).metaDB =
        dbSet st.metaDB url (createMetaData st.metaDB env.now url html) from rfl]
    exact dbGet_dbSet_ne st.metaDB url u _ hu

theorem mem_dbSet (db : List (String × MetaData)) (k : String) (v : MetaData)
    (p : String × MetaData) (h : p ∈ dbSet db k v) : p = (k, v) ∨ p ∈ db := by
  induction db with
  | nil =>
    simp [dbSet] at h
    exact Or.inl h
  | cons kv rest ih =>
    obtain ⟨k0, w⟩ := kv
    by_cases hk : k0 = k
    · subst hk
      simp only [dbSet, if_pos rfl] at h
      rcases List.mem_cons.mp h with he | hm
      · exact Or.inl he
      · exact Or.inr (List.mem_cons_of_mem _ hm)
    · simp only [dbSet, if_neg hk] at h
      rcases List.mem_cons.mp h with he | hm
      · exact Or.inr (he ▸ List.mem_cons_self _ _)
      · rcases ih hm with h1 | h2
        · exact Or.inl h1
        · exact Or.inr (List.mem_cons_of_mem _ h2)

theorem mem_loadEntries (metas : List MetaData) :
    ∀ (db : List (String × MetaData)) (p : String × MetaData),
      p ∈ loadEntries metas db → p ∈ db ∨ p.2 ∈ metas := by
  induction metas with
  | nil =>
    intro db p h
    exact Or.inl h
  | cons m rest ih =>
    intro db p h
    rw [loadEntries] at h
    rcases ih _ p h with h1 | h2
    · rcases mem_dbSet _ _ _ _ h1 with he | hm
      · right
        rw [he]
        exact List.mem_cons_self _ _
      · exact Or.inl hm
    · exact Or.inr (List.mem_cons_of_mem _ h2)

theorem reachable_num_fetches_pos (db : List (String × MetaData)) (h : ReachableDB db) :
    ∀ p ∈ db, 1 ≤ p.2.num_fetches := by
  induction h with
  | empty =>
    intro p hp
    simp at hp
  | update db0 now url html hdb ih =>
    intro p hp
    rcases mem_dbSet _ _ _ _ hp with he | hm
    · rw [he]
      exact Nat.succ_le_succ (Nat.zero_le _)
    · exact ih p hm
  | reload db0 hdb ih =>
    intro p hp
    rcases mem_loadEntries _ _ _ hp with h1 | h2
    · simp at h1
    · obtain ⟨q, hq, hqe⟩ := List.mem_map.mp h2
      exact hqe ▸ ih q hq

/-- Claim C9: in every ledger state the program itself can reach (empty
start, successful-mirror updates, restart from a snapshot it wrote), every
entry has `num_fetches` at least 1, and a successful-mirror update never
decreases the `num_fetches` recorded for any URL. -/
theorem ledger_invariant_c9 (db : List (String × MetaData)) (h : ReachableDB db) :
    (∀ p ∈ db, 1 ≤ p.2.num_fetches) ∧
    ∀ (now : Nat) (url : String) (html : Html) (u : String) (m m' : MetaData),
      dbGet db u = some m →
      dbGet (dbSet db url (createMetaData db now url html)) u = some m' →
      m.num_fetches ≤ m'.num_fetches := by
  refine ⟨reachable_num_fetches_pos db h, ?_⟩
  intro now url html u m m' hm hm'
  by_cases hu : u = url
  · subst hu
    rw [dbGet_dbSet_self] at hm'
    injection hm' with hm'
    have hcount : (createMetaData db now u html).num_fetches = m.num_fetches + 1 := by
      simp [createMetaData, hm]
    rw [← hm', hcount]
    exact Nat.le_succ _
  · rw [dbGet_dbSet_ne db url u _ hu, hm] at hm'
    injection hm' with hm'
    rw [hm']

theorem ledger_invariant_c9_witness :
    1 ≤ (("u", createMetaData [] 7 "u" htmlW) : String × MetaData).2.num_fetches :=
  (ledger_invariant_c9 (dbSet [] "u" (createMetaData [] 7 "u" htmlW))
      (ReachableDB.update [] 7 "u" htmlW ReachableDB.empty)).1
    ("u", createMetaData [] 7 "u" htmlW) (by decide)

theorem task_metaDB (env : Env) (dir u : String) (i : Nat) (st : St) :
    (task env dir u i st).metaDB = st.metaDB := by
  unfold task
  rcases hr : env.resFetch u with e | d
  · rfl
  · rcases hw : env.fsWrite (pathJoin dir (env.pathnameOf u)) with e | x
    · rfl
    · rfl

theorem task_files (env : Env) (dir u : String) (i : Nat) (st : St) :
    (task env dir u i st).files = st.files ++ (taskWrite env dir u).toList := by
  unfold task taskWrite
  rcases hr : env.resFetch u with e | d
  · simp [pushLog]
  · rcases hw : env.fsWrite (pathJoin dir (env.pathnameOf u)) with e | x
    · simp [pushLog]
    · simp [pushLog, addFile]

theorem task_log (env : Env) (dir u : String) (i : Nat) (st : St) :
    ∃ t, (task env dir u i st).log = st.log ++ ("Downloading: " ++ u) :: t := by
  unfold task
  rcases hr : env.resFetch u with e | d
  · exact ⟨["Error downloading file " ++ toString (i + 1) ++ ": " ++ u, "  Details: " ++ e],
      by simp [pushLog]⟩
  · rcases hw : env.fsWrite (pathJoin dir (env.pathnameOf u)) with e | x
    · exact ⟨["Error downloading file " ++ toString (i + 1) ++ ": " ++ u, "  Details: " ++ e],
        by simp [pushLog]⟩
    · exact ⟨["File #" ++ toString (i + 1) ++ " downloaded successfully."],
        by simp [pushLog, addFile]⟩

theorem task_details (env : Env) (dir u : String) (i : Nat) (st : St) (e : String)
    (hr : env.resFetch u = Except.error e) :
    ("  Details: " ++ e) ∈ (task env dir u i st).log := by
  unfold task
  rw [hr]
  simp [pushLog]

theorem go_metaDB (env : Env) (dir : String) (urls : List String) :
    ∀ (i : Nat) (st : St), (downloadFilesGo env dir i urls st).metaDB = st.metaDB := by
  induction urls with
  | nil => intro i st; rfl
  | cons u rest ih =>
    intro i st
    show (downloadFilesGo env dir (i + 1) rest (task env dir u i st)).metaDB = st.metaDB
    rw [ih, task_metaDB]

theorem go_files (env : Env) (dir : String) (urls : List String) :
    ∀ (i : Nat) (st : St),
      (downloadFilesGo env dir i urls st).files =
        st.files ++ urls.filterMap (taskWrite env dir) := by
  induction urls with
  | nil => intro i st; simp [downloadFilesGo]
  | cons u rest ih =>
    intro i st
    show (downloadFilesGo env dir (i + 1) rest (task env dir u i st)).files = _
    rw [ih, task_files]
    cases h : taskWrite env dir u <;> simp [h, List.filterMap_cons]

theorem go_log_mono (env : Env) (dir : String) (urls : List String) :
    ∀ (i : Nat) (st : St) (l : String),
      l ∈ st.log → l ∈ (downloadFilesGo env dir i urls st).log := by
  induction urls with
  | nil => intro i st l hl; exact hl
  | cons u rest ih =>
    intro i st l hl
    show l ∈ (downloadFilesGo env dir (i + 1) rest (task env dir u i st)).log
    apply ih
    obtain ⟨t, ht⟩ := task_log env dir u i st
    rw [ht]
    exact List.mem_append_left _ hl

theorem go_downloading (env : Env) (dir : String) (urls : List String) :
    ∀ (i : Nat) (st : St) (u : String), u ∈ urls →
      ("Downloading: " ++ u) ∈ (downloadFilesGo env dir i urls st).log := by
  induction urls with
  | nil => intro i st u hu; simp at hu
  | cons u0 rest ih =>
    intro i st u hu
    show _ ∈ (downloadFilesGo env dir (i + 1) rest (task env dir u0 i st)).log
    rcases List.mem_cons.mp hu with he | hm
    · subst he
      apply go_log_mono
      obtain ⟨t, ht⟩ := task_log env dir u i st
      rw [ht]
      simp
    · exact ih _ _ u hm

theorem go_details (env : Env) (dir : String) (urls : List String) :
    ∀ (i : Nat) (st : St) (u e : String), u ∈ urls →
      env.resFetch u = Except.error e →
      ("  Details: " ++ e) ∈ (downloadFilesGo env dir i urls st).log := by
  induction urls with
  | nil => intro i st u e hu _; simp at hu
  | cons u0 rest ih =>
    intro i st u e hu hr
    show _ ∈ (downloadFilesGo env dir (i + 1) rest (task env dir u0 i st)).log
    rcases List.mem_cons.mp hu with he | hm
    · subst he
      exact go_log_mono env dir rest _ _ _ (task_details env dir u i st e hr)
    · exact ih _ _ u e hm hr

theorem updateMetaData_dbGet (env : Env) (url : String) (html : Html) (s : St) :
    dbGet (updateMetaData env url html s).metaDB url =
      some (createMetaData s.metaDB env.now url html) := by
  show dbGet (dbSet s.metaDB url (createMetaData s.metaDB env.now url html)) url = _
  exact dbGet_dbSet_self _ _ _

theorem downloadFilesInHtml_metaDB (env : Env) (b : String) (h : Html) (d : String)
    (s : St) : (downloadFilesInHtml env b h d s).metaDB = s.metaDB := by
  show (downloadFilesGo env d 0 (downloadUrls env b h) s).metaDB = s.metaDB
  exact go_metaDB env d (downloadUrls env b h) 0 s

/-- Claim C2: any exception raised during validation, the page fetch or the
page-file write aborts the run for that URL and is logged, and the files,
the in-memory ledger and the persisted snapshot are all exactly what they
were before the run--no entry is created or updated. -/
theorem refetch_abort_preserves_ledger_c2 (env : Env) (appPath url : String) (st : St)
    (h : (∃ e, fetchData env url = Except.error e) ∨
      ((∃ html, fetchData env url = Except.ok html) ∧
        ∃ e, env.fsWrite (pathJoin appPath (urlToFilename url)) = Except.error e)) :
    (refetchDataFromUrl env appPath url st).files = st.files ∧
    (refetchDataFromUrl env appPath url st).metaDB = st.metaDB ∧
    (refetchDataFromUrl env appPath url st).metaFile = st.metaFile ∧
    ∃ e, (fetchData env url = Except.error e ∨
        env.fsWrite (pathJoin appPath (urlToFilename url)) = Except.error e) ∧
      ∃ pre, (refetchDataFromUrl env appPath url st).log = st.log ++ pre ++ [e] := by
  rcases h with ⟨e, he⟩ | ⟨⟨html, hok⟩, ⟨e, hw⟩⟩
  · have hres : refetchDataFromUrl env appPath url st =
        pushLog (pushLog st ("Fetching " ++ url ++ " ...")) e := by
      simp only [refetchDataFromUrl, he]
    rw [hres]
    exact ⟨rfl, rfl, rfl, e, Or.inl he, ["Fetching " ++ url ++ " ..."], by simp [pushLog]⟩
  · have hres : refetchDataFromUrl env appPath url st =
        pushLog (pushLog (pushLog st ("Fetching " ++ url ++ " ..."))
          ("Content fetched from " ++ url ++ " successfully.")) e := by
      simp only [refetchDataFromUrl, hok, hw]
    rw [hres]
    exact ⟨rfl, rfl, rfl, e, Or.inr hw,
      ["Fetching " ++ url ++ " ...", "Content fetched from " ++ url ++ " successfully."],
      by simp [pushLog]⟩

theorem refetch_abort_preserves_ledger_c2_witness :
    (refetchDataFromUrl envW2 "app" "http://example.com" stW).files = stW.files ∧
    (refetchDataFromUrl envW2 "app" "http://example.com" stW).metaDB = stW.metaDB ∧
    (refetchDataFromUrl envW2 "app" "http://example.com" stW).metaFile = stW.metaFile ∧
    ∃ e, (fetchData envW2 "http://example.com" = Except.error e ∨
        envW2.fsWrite (pathJoin "app" (urlToFilename "http://example.com")) =
          Except.error e) ∧
      ∃ pre, (refetchDataFromUrl envW2 "app" "http://example.com" stW).log =
        stW.log ++ pre ++ [e] :=
  refetch_abort_preserves_ledger_c2 envW2 "app" "http://example.com" stW
    (Or.inl ⟨"network down", rfl⟩)

/-- Claim C1: the resource-download operation settles every per-resource
task and returns normally: every URL in the set is attempted and logged,
the files written are exactly the per-task successes (each task's write is
a function of its own fetch and write outcomes alone, so one failure never
aborts a sibling), every fetch failure is logged with its detail, and after
a successful page fetch and page write the pipeline still records the
ledger entry for the URL whatever the resource oracles answer. -/
theorem downloads_settle_and_pipeline_continues_c1 (env : Env) (dir : String)
    (urls : List String) (st : St) (appPath url : String) (html : Html)
    (hvalid : isValidUrl url = true)
    (hfetch : env.pageFetch url = Except.ok html)
    (hwrite : env.fsWrite (pathJoin appPath (urlToFilename url)) = Except.ok ()) :
    (∀ u ∈ urls, ("Downloading: " ++ u) ∈ (downloadFiles env urls dir st).log) ∧
    (downloadFiles env urls dir st).files =
      st.files ++ urls.filterMap (taskWrite env dir) ∧
    (∀ u ∈ urls, ∀ e, env.resFetch u = Except.error e →
      ("  Details: " ++ e) ∈ (downloadFiles env urls dir st).log) ∧
    dbGet (refetchDataFromUrl env appPath url st).metaDB url =
      some (createMetaData st.metaDB env.now url html) := by
  refine ⟨?_, ?_, ?_, ?_⟩
  · intro u hu
    exact go_downloading env dir urls 0 st u hu
  · exact go_files env dir urls 0 st
  · intro u hu e hr
    exact go_details env dir urls 0 st u e hu hr
  · have hfd : fetchData env url = Except.ok html := by
      simp [fetchData, hvalid, hfetch]
    simp only [refetchDataFromUrl, hfd, hwrite]
    rw [updateMetaData_dbGet, downloadFilesInHtml_metaDB]
    rfl

theorem downloads_settle_and_pipeline_continues_c1_witness :
    ("Downloading: " ++ "u1") ∈ (downloadFiles envW1 ["u1", "u2"] "dir" stW).log ∧
    dbGet (refetchDataFromUrl envW1 "app" "http://example.com" stW).metaDB
        "http://example.com" =
      some (createMetaData stW.metaDB envW1.now "http://example.com" htmlW) :=
  ⟨(downloads_settle_and_pipeline_continues_c1 envW1 "dir" ["u1", "u2"] stW "app"
      "http://example.com" htmlW (by decide) rfl rfl).1 "u1" (by decide),
   (downloads_settle_and_pipeline_continues_c1 envW1 "dir" ["u1", "u2"] stW "app"
      "http://example.com" htmlW (by decide) rfl rfl).2.2.2⟩
